import Mathlib

/-!
Verification development for the KZ pool scraper.

The definitions below are shallow embeddings of the Python sources
`btcpool_scraper.py`, `upload_to_supabase.py` and `manage_pools.py`:
pure functions are translated directly, SQLite tables become lists of
row structures, machine floats become rationals, and code that can
raise becomes `Option`/`Except`-valued (with `none`/`.error` standing
for a raised exception).
-/

/-- Character class of the regex fragment `[\d.]` used by
`re.search(r'([\d.]+)\s*([TGMP]?H/s)', ...)` in both hashrate parsers. -/
def isDigitOrDot (c : Char) : Bool := c.isDigit || c = '.'

/-- Python's `\s` class (ASCII part): space, tab, newline, carriage
return, vertical tab, form feed. -/
def isPySpace (c : Char) : Bool :=
  c = ' ' || c = '\t' || c = '\n' || c = '\r' || c = '\x0b' || c = '\x0c'

/-- Numeric value of a decimal digit list (most significant first). -/
def digitsVal (l : List Char) : Nat :=
  l.foldl (fun a c => a * 10 + (c.toNat - 48)) 0

/-- Python `float()` applied to a token drawn from `[\d.]+`
(`match.group(1)` in the hashrate parsers): it succeeds exactly when
the token has at least one digit and at most one dot, and raises
`ValueError` (here: `none`) otherwise, e.g. on `"1.2.3"`. -/
def pyFloatOfToken (l : List Char) : Option ℚ :=
  if l.count '.' ≤ 1 && l.any Char.isDigit && l.all isDigitOrDot then
    let ip := l.takeWhile (fun c => c ≠ '.')
    let fp := (l.dropWhile (fun c => c ≠ '.')).drop 1
    some ((digitsVal ip : ℚ) + (digitsVal fp : ℚ) / (10 : ℚ) ^ fp.length)
  else none

/-- Match of the regex fragment `[TGMP]?H/s` at a position: the unit
group `match.group(2)` when it matches, `none` otherwise. -/
def matchUnit : List Char → Option String
  | 'P' :: 'H' :: '/' :: 's' :: _ => some "PH/s"
  | 'T' :: 'H' :: '/' :: 's' :: _ => some "TH/s"
  | 'G' :: 'H' :: '/' :: 's' :: _ => some "GH/s"
  | 'M' :: 'H' :: '/' :: 's' :: _ => some "MH/s"
  | 'H' :: '/' :: 's' :: _ => some "H/s"
  | _ => none

/-- Attempt to match `([\d.]+)\s*([TGMP]?H/s)` anchored at the head of
the list, returning `(group 1, group 2)`.  Taking the maximal `[\d.]`
run is faithful to the regex: the characters that can follow
(`\s`, `TGMP`, `H`) are disjoint from `[\d.]`, so backtracking inside
the numeric group can never produce a match. -/
def matchAt (l : List Char) : Option (List Char × String) :=
  let num := l.takeWhile isDigitOrDot
  let rest := (l.dropWhile isDigitOrDot).dropWhile isPySpace
  if num.isEmpty then none
  else match matchUnit rest with
    | some u => some (num, u)
    | none => none

/-- `re.search` for the pattern `([\d.]+)\s*([TGMP]?H/s)`: try every
start position left to right and return the first match. -/
def reSearch : List Char → Option (List Char × String)
  | [] => none
  | c :: rest =>
    match matchAt (c :: rest) with
    | some r => some r
    | none => reSearch rest

/-- The conversion table
`{'PH/s': 1000, 'TH/s': 1, 'GH/s': 0.001, 'MH/s': 0.000001}` with the
`.get(unit, 1)` default. -/
def convFactor (u : String) : ℚ :=
  if u = "PH/s" then 1000
  else if u = "TH/s" then 1
  else if u = "GH/s" then 1 / 1000
  else if u = "MH/s" then 1 / 1000000
  else 1

/-- `BTCPoolScraper.parse_hashrate_to_ths` (btcpool_scraper.py):
empty string ↦ 0, no regex match ↦ 0, otherwise
`float(group 1) * conversions.get(group 2, 1)`; `none` models the
`ValueError` raised by `float` on a malformed numeric token. -/
def parse_hashrate_to_ths (s : String) : Option ℚ :=
  if s.isEmpty then some 0
  else
    match reSearch s.data with
    | none => some 0
    | some (num, u) => (pyFloatOfToken num).map (fun v => v * convFactor u)

/-- Python `int()` on a float: truncation toward zero; on a rational,
`num / den` with truncating integer division. -/
def pyInt (q : ℚ) : ℤ := q.num.tdiv (q.den : ℤ)

/-- `SupabaseUploader.parse_hashrate` (upload_to_supabase.py): same
regex and table as `parse_hashrate_to_ths`, but the result is passed
through `int(...)`. -/
def parse_hashrate (s : String) : Option ℤ :=
  if s.isEmpty then some 0
  else
    match reSearch s.data with
    | none => some 0
    | some (num, u) => (pyFloatOfToken num).map (fun v => pyInt (v * convFactor u))

example : parse_hashrate_to_ths "13.5 TH/s" = some (27/2) := by
  simp +decide [parse_hashrate_to_ths, reSearch, matchAt, matchUnit, convFactor,
    pyFloatOfToken, digitsVal, List.takeWhile_cons, List.dropWhile_cons]
  norm_num

example : parse_hashrate_to_ths "500 GH/s" = some (1/2) := by
  simp +decide [parse_hashrate_to_ths, reSearch, matchAt, matchUnit, convFactor,
    pyFloatOfToken, digitsVal, List.takeWhile_cons, List.dropWhile_cons]
  norm_num

example : parse_hashrate_to_ths "1.2.3 TH/s" = none := by decide

example : parse_hashrate_to_ths "5KH/s" = some 0 := by decide

example : parse_hashrate_to_ths "nonsense" = some 0 := by decide

example : parse_hashrate_to_ths "" = some 0 := by decide

example : parse_hashrate "500 GH/s" = some 0 := by
  simp +decide [parse_hashrate, reSearch, matchAt, matchUnit, convFactor, pyInt,
    pyFloatOfToken, digitsVal, List.takeWhile_cons, List.dropWhile_cons]
  norm_num
  decide

/-! ## Local store data model

SQLite tables become lists of row structures; a row's
`DEFAULT CURRENT_TIMESTAMP` column becomes an explicit `ts : Nat`
(timestamps are totally ordered; concrete runs produce increasing
values).  `AUTOINCREMENT` ids are positional and not modelled. -/

/-- A row of `pool_metadata` (btcpool_scraper.py `setup_database`). -/
structure MetaRow where
  pool_id : String
  pool_name : String
  observer_url : String
  client_name : String
  country : String
  company : String
  location : String
  contact_email : String
  tags : String
  active : Int
deriving DecidableEq, Repr

/-- A row of `pool_summary`.  `online_workers`/`offline_workers` are
INTEGER columns (SQLite numeric affinity turns the scraped digit
strings into integers; the uploader applies `int(...)` to them). -/
structure SummaryRow where
  ts : Nat
  pool_id : String
  observer_url : String
  current_hashrate : String
  avg_hashrate_24h : String
  online_workers : Int
  offline_workers : Int
  balance : String
  last_income : String
deriving DecidableEq, Repr

/-- A row of `worker_status`. -/
structure WorkerRow where
  ts : Nat
  pool_id : String
  observer_url : String
  worker_name : String
  status : String
  hashrate_10m : String
  hashrate_1h : String
  hashrate_24h : String
  last_exchange_time : String
deriving DecidableEq, Repr

/-- A row of `daily_earnings` (`UNIQUE(pool_id, date)`). -/
structure EarningRow where
  pool_id : String
  observer_url : String
  date : String
  total_income : String
  hashrate : String
deriving DecidableEq, Repr

/-- A row of `anomaly_log`. -/
structure AnomalyRow where
  ts : Nat
  pool_id : String
  observer_url : String
  anomaly_type : String
  description : String
  severity : String
deriving DecidableEq, Repr

/-- The five local tables created by `setup_database`. -/
structure LocalDB where
  pool_metadata : List MetaRow
  pool_summary : List SummaryRow
  worker_status : List WorkerRow
  daily_earnings : List EarningRow
  anomaly_log : List AnomalyRow
deriving DecidableEq, Repr

/-! ## Scraped data (output of `page.evaluate` in `scrape_data`) -/

/-- The `data['summary']` map when it is non-empty; the scraped worker
counts are written into INTEGER columns, so they are carried as `Int`
here (the uploader's `int(...)` is then the identity). -/
structure ScrapeSummary where
  current_hashrate : String
  avg_hashrate_24h : String
  online_workers : Int
  offline_workers : Int
  balance : String
  last_income : String
deriving DecidableEq, Repr

/-- One element of `data['workers']`. -/
structure WorkerInfo where
  name : String
  status : String
  hashrate_10m : String
  hashrate_1h : String
  hashrate_24h : String
  last_exchange_time : String
deriving DecidableEq, Repr

/-- One element of `data['daily_earnings']`. -/
structure EarningInfo where
  date : String
  total_income : String
  hashrate : String
deriving DecidableEq, Repr

/-- One scrape's extracted data; `summary = none` models the empty
summary dict (`if data['summary']:` is then false). -/
structure ScrapeData where
  summary : Option ScrapeSummary
  workers : List WorkerInfo
  earnings : List EarningInfo
deriving DecidableEq, Repr

/-! ## Persister (`save_to_database`) -/

/-- `INSERT OR REPLACE INTO daily_earnings`: with the
`UNIQUE(pool_id, date)` constraint, a conflicting row is deleted and
the new row inserted. -/
def upsertEarning (tbl : List EarningRow) (e : EarningRow) : List EarningRow :=
  tbl.filter (fun r => !(r.pool_id == e.pool_id && r.date == e.date)) ++ [e]

/-- One `cursor.execute` write of the persistence cycle. -/
inductive TableWrite where
  | summary (r : SummaryRow)
  | worker (r : WorkerRow)
  | earning (r : EarningRow)
deriving DecidableEq, Repr

/-- Effect of one write on the staged (uncommitted) store state. -/
def applyWrite (db : LocalDB) : TableWrite → LocalDB
  | .summary r => { db with pool_summary := db.pool_summary ++ [r] }
  | .worker r => { db with worker_status := db.worker_status ++ [r] }
  | .earning r => { db with daily_earnings := upsertEarning db.daily_earnings r }

/-- The writes issued by `save_to_database` for one scrape cycle, in
program order: the summary insert (only when the summary map is
non-empty), one `worker_status` insert per worker, one
`INSERT OR REPLACE` per earning. -/
def cycleWrites (pool_id observer_url : String) (ts : Nat) (d : ScrapeData) : List TableWrite :=
  (match d.summary with
   | some s => [TableWrite.summary
      { ts := ts, pool_id := pool_id, observer_url := observer_url,
        current_hashrate := s.current_hashrate, avg_hashrate_24h := s.avg_hashrate_24h,
        online_workers := s.online_workers, offline_workers := s.offline_workers,
        balance := s.balance, last_income := s.last_income }]
   | none => [])
  ++ d.workers.map (fun w => TableWrite.worker
      { ts := ts, pool_id := pool_id, observer_url := observer_url,
        worker_name := w.name, status := w.status, hashrate_10m := w.hashrate_10m,
        hashrate_1h := w.hashrate_1h, hashrate_24h := w.hashrate_24h,
        last_exchange_time := w.last_exchange_time })
  ++ d.earnings.map (fun e => TableWrite.earning
      { pool_id := pool_id, observer_url := observer_url, date := e.date,
        total_income := e.total_income, hashrate := e.hashrate })

/-- Run the cycle's writes against the staged state.  `fail` is the
environment's fault oracle: `fail i = true` means the `i`-th
`cursor.execute` raises (disk error, constraint violation, ...);
`none` models the exception. -/
def runWrites (fail : Nat → Bool) : Nat → LocalDB → List TableWrite → Option LocalDB
  | _, staged, [] => some staged
  | i, staged, w :: ws =>
    if fail i then none else runWrites fail (i + 1) (applyWrite staged w) ws

/-- `save_to_database`: all writes go through one connection and are
committed by the single `conn.commit()` at the end; an exception skips
the commit (SQLite rolls the open transaction back), leaving the
committed store unchanged, and is re-raised (`raise`).  Result: the
visible committed store, and `true` iff the cycle succeeded. -/
def save_to_database (fail : Nat → Bool) (pool_id observer_url : String) (ts : Nat)
    (db : LocalDB) (d : ScrapeData) : LocalDB × Bool :=
  match runWrites fail 0 db (cycleWrites pool_id observer_url ts d) with
  | some staged => (staged, true)
  | none => (db, false)

/-! ## Anomaly Detector (`check_anomalies`) -/

/-- The OFFLINE_WORKERS anomaly as appended to `anomaly_log` (type and
`resolved = 0` are fixed). -/
structure OfflineAnomaly where
  description : String
  severity : String
deriving DecidableEq, Repr

/-- Offline-worker rule: `offline_count` is
`int(data['summary'].get('offline_workers', 0))`; fires when positive,
severity HIGH when `> 5`, description joining the first 5 names whose
status is OFFLINE in the scraped worker list. -/
def checkOffline (offline_count : Int) (workers : List WorkerInfo) : Option OfflineAnomaly :=
  if offline_count > 0 then
    some { description := toString offline_count ++ " worker(s) offline: " ++
             String.intercalate ", "
               (((workers.filter (fun w => w.status == "OFFLINE")).map (fun w => w.name)).take 5),
           severity := if offline_count > 5 then "HIGH" else "MEDIUM" }
  else none

/-- The HASHRATE_DROP anomaly; its description renders `drop_percent`
with `:.1f` and the average with `:.2f`, which is display formatting —
the numeric drop percent and the severity are the modelled payload. -/
structure DropAnomaly where
  dropPercent : ℚ
  severity : String
deriving DecidableEq, Repr

/-- Insertion of a summary row into a list sorted by descending `ts`. -/
def insertTsDesc (r : SummaryRow) : List SummaryRow → List SummaryRow
  | [] => [r]
  | x :: xs => if x.ts ≤ r.ts then r :: x :: xs else x :: insertTsDesc r xs

/-- Sort summary rows by descending `ts` (`ORDER BY timestamp DESC`). -/
def sortTsDesc (l : List SummaryRow) : List SummaryRow :=
  l.foldr insertTsDesc []

/-- The detector's history query:
`SELECT current_hashrate FROM pool_summary WHERE pool_id = ? ORDER BY timestamp DESC LIMIT 10`. -/
def fetchRecentHashrates (db : LocalDB) (p : String) : List String :=
  ((sortTsDesc (db.pool_summary.filter (fun r => r.pool_id == p))).take 10).map
    (fun r => r.current_hashrate)

/-- Hashrate-drop rule, applied to the fetched history (newest first)
and the scraped current-hashrate string.  `.error` models an exception
inside the rule (a malformed value reaching `float`), which
`check_anomalies` catches and logs. -/
def checkHashrateDrop (fetched : List String) (current_str : String) :
    Except Unit (Option DropAnomaly) :=
  if fetched.length > 1 then
    match parse_hashrate_to_ths current_str with
    | none => .error ()
    | some current =>
      match (fetched.drop 1).mapM parse_hashrate_to_ths with
      | none => .error ()
      | some vals =>
        let avg := vals.sum / (vals.length : ℚ)
        if current < avg * 0.8 then
          .ok (some { dropPercent := (avg - current) / avg * 100,
                      severity := if (avg - current) / avg * 100 > 30 then "HIGH" else "MEDIUM" })
        else .ok none
  else .ok none

/-! ## Pool deletion (`PoolManager.delete_pool`, manage_pools.py)

The interactive confirmation (`input() == 'DELETE'` unless `--yes`) is
console I/O; the embedded operation is the confirmed deletion that
then runs the five `DELETE ... WHERE pool_id = ?` statements. -/

/-- Confirmed `delete_pool`: the five `DELETE ... WHERE pool_id = ?`
statements run in one open transaction, and the code then inspects
`cursor.rowcount` — which reflects only the LAST statement,
`DELETE FROM anomaly_log` — committing only when it is non-zero.  When
the pool has no `anomaly_log` rows, `conn.commit()` is skipped (the
code prints "Pool not found"), `conn.close()` rolls the transaction
back, and the store is unchanged. -/
def delete_pool (db : LocalDB) (p : String) : LocalDB :=
  if (db.anomaly_log.filter (fun r => r.pool_id == p)).length = 0 then db
  else
    { pool_metadata := db.pool_metadata.filter (fun r => !(r.pool_id == p)),
      pool_summary := db.pool_summary.filter (fun r => !(r.pool_id == p)),
      worker_status := db.worker_status.filter (fun r => !(r.pool_id == p)),
      daily_earnings := db.daily_earnings.filter (fun r => !(r.pool_id == p)),
      anomaly_log := db.anomaly_log.filter (fun r => !(r.pool_id == p)) }

/-! ## Synchronizer (`SupabaseUploader.upload_latest`, upload_to_supabase.py) -/

/-- Constructor arguments of `SupabaseUploader`. -/
structure UploaderCfg where
  account_name : String
  company : String
  client_name : String
  country : String
  site : String
deriving DecidableEq, Repr

/-- Python `str.replace('BTC', '')`: delete every occurrence of the
substring, scanning left to right. -/
def removeBTC : List Char → List Char
  | 'B' :: 'T' :: 'C' :: rest => removeBTC rest
  | c :: rest => c :: removeBTC rest
  | [] => []

/-- Python `str.strip()`. -/
def pyTrim (l : List Char) : List Char :=
  ((l.dropWhile isPySpace).reverse.dropWhile isPySpace).reverse

/-- Python `float()` on a stripped string: optional sign followed by a
digits-and-dot literal.  Exponent and inf/nan spellings are outside the
embedding and map to `none` (a raised `ValueError`); every currency
use of `float` in the uploader sits inside `try/except`, so `none`
there means "value absent". -/
def pyFloatSigned : List Char → Option ℚ
  | '+' :: rest => pyFloatOfToken rest
  | '-' :: rest => (pyFloatOfToken rest).map (fun v => -v)
  | l => pyFloatOfToken l

/-- `float(s.replace('BTC', '').strip())` as an `Option`:
`none` is the `ValueError` caught by the enclosing `try/except`. -/
def tryFloatBTC (s : String) : Option ℚ :=
  pyFloatSigned (pyTrim (removeBTC s.data))

/-- The `accounts` upsert payload; `balance`/`earn_24_hours` are absent
(`none`) when the source string is empty or fails to parse. -/
structure AccountData where
  account_name : String
  coin_type : String
  company : String
  site : String
  account_type : String
  group_name : String
  balance : Option ℚ
  earn_24_hours : Option ℚ
deriving DecidableEq, Repr

/-- Build `account_data` from the selected summary row. -/
def accountPayload (cfg : UploaderCfg) (s : SummaryRow) : AccountData :=
  { account_name := cfg.account_name, coin_type := "BTC", company := cfg.company,
    site := cfg.site, account_type := "kzpool", group_name := cfg.client_name,
    balance := if s.balance.isEmpty then none else tryFloatBTC s.balance,
    earn_24_hours := if s.last_income.isEmpty then none else tryFloatBTC s.last_income }

/-- The `hashrates` insert payload. -/
structure HashrateData where
  account_name : String
  hashrate_10m : Int
  hashrate_1h : Int
  hashrate_1d : Int
  worker_count : Int
  active_workers : Int
deriving DecidableEq, Repr

/-- Build `hashrate_data`; `none` models the uncaught exception when
`parse_hashrate` raises on a malformed stored string. -/
def hashratePayload (cfg : UploaderCfg) (s : SummaryRow) : Option HashrateData :=
  match parse_hashrate s.current_hashrate, parse_hashrate s.avg_hashrate_24h with
  | some h10, some h1d =>
    some { account_name := cfg.account_name, hashrate_10m := h10, hashrate_1h := h10,
           hashrate_1d := h1d, worker_count := s.online_workers + s.offline_workers,
           active_workers := s.online_workers }
  | _, _ => none

/-- `str.replace(' ', '_')`. -/
def replaceSpaces (s : String) : String :=
  String.mk (s.data.map (fun c => if c = ' ' then '_' else c))

/-- `device_id = f"KZ_{self.account_name}_{worker['worker_name']}".replace(' ', '_')`. -/
def device_id (account worker : String) : String :=
  replaceSpaces ("KZ_" ++ account ++ "_" ++ worker)

/-- The `devices` upsert payload. -/
structure DeviceData where
  device_id : String
  serial_number : String
  account_name : String
  worker_name : String
  device_type : String
  status : String
  site : String
  location : String
deriving DecidableEq, Repr

/-- Build one `device_data` record from a worker row. -/
def devicePayload (cfg : UploaderCfg) (w : WorkerRow) : DeviceData :=
  { device_id := device_id cfg.account_name w.worker_name,
    serial_number := w.worker_name, account_name := cfg.account_name,
    worker_name := w.worker_name, device_type := "ASIC",
    status := w.status.toLower, site := cfg.site, location := cfg.country }

/-- Structural helper for `chunks`: `fuel` bounds the number of
slices (any `fuel ≥ l.length` is exact for positive `n`). -/
def chunksGo {α : Type} (n : Nat) : Nat → List α → List (List α)
  | _, [] => []
  | 0, _ :: _ => []
  | fuel + 1, x :: xs => (x :: xs).take n :: chunksGo n fuel ((x :: xs).drop n)

/-- `range(0, len(l), n)` slicing `l[i:i+n]`: split into batches of at
most `n` (the uploader always uses `n = 50`). -/
def chunks {α : Type} (n : Nat) (l : List α) : List (List α) :=
  chunksGo n l.length l

/-- Maximum `ts` in `worker_status` (`SELECT MAX(timestamp) ...`);
`none` when the table is empty (SQL NULL, which then matches no row). -/
def maxWorkerTs (l : List WorkerRow) : Option Nat :=
  l.foldl (fun acc r =>
    match acc with
    | none => some r.ts
    | some m => some (max m r.ts)) none

/-- `SELECT * FROM worker_status WHERE timestamp = (SELECT MAX(timestamp) FROM worker_status)` —
note: no `pool_id` filter. -/
def currentWorkers (l : List WorkerRow) : List WorkerRow :=
  match maxWorkerTs l with
  | none => []
  | some m => l.filter (fun r => r.ts == m)

/-- `SELECT * FROM pool_summary ORDER BY timestamp DESC LIMIT 1` —
note: no `pool_id` filter; the first row of maximal `ts`. -/
def latestSummary (l : List SummaryRow) : Option SummaryRow :=
  l.foldl (fun acc r =>
    match acc with
    | none => some r
    | some m => if m.ts < r.ts then some r else some m) none

/-- Byte-wise string comparison (SQLite's BINARY collation on TEXT);
for the ASCII date strings this is codepoint-lexicographic order. -/
def strLtB : List Char → List Char → Bool
  | [], [] => false
  | [], _ :: _ => true
  | _ :: _, [] => false
  | a :: as, b :: bs => if a < b then true else if b < a then false else strLtB as bs

/-- Insertion into a list sorted by descending `date`. -/
def insertDateDesc (e : EarningRow) : List EarningRow → List EarningRow
  | [] => [e]
  | x :: xs => if strLtB x.date.data e.date.data || x.date == e.date
      then e :: x :: xs else x :: insertDateDesc e xs

/-- `SELECT * FROM daily_earnings ORDER BY date DESC LIMIT 30` —
note: no `pool_id` filter. -/
def recentEarnings (l : List EarningRow) : List EarningRow :=
  (l.foldr insertDateDesc []).take 30

/-- One `income_tracking` record. -/
structure IncomeData where
  account_name : String
  date : String
  btc_amount : ℚ
  source : String
  transaction_type : String
deriving DecidableEq, Repr

/-- Build the income batch: each selected earning is translated, and
one whose income string fails `float` is skipped
(`try/except: continue`). -/
def incomeRecords (cfg : UploaderCfg) (l : List EarningRow) : List IncomeData :=
  (recentEarnings l).filterMap (fun e =>
    (tryFloatBTC e.total_income).map (fun v =>
      { account_name := cfg.account_name, date := e.date, btc_amount := v,
        source := "KZ Pool", transaction_type := "mining_reward" }))

/-- The `alerts` upsert payload; the message text interpolates the
offline count. -/
structure AlertData where
  account_name : String
  alert_type : String
  severity : String
  message : String
deriving DecidableEq, Repr

/-- Offline alert: emitted when `int(summary['offline_workers']) > 0`,
severity `high` when `> 5`. -/
def alertPayload (cfg : UploaderCfg) (s : SummaryRow) : Option AlertData :=
  if s.offline_workers > 0 then
    some { account_name := cfg.account_name, alert_type := "offline_workers",
           severity := if s.offline_workers > 5 then "high" else "medium",
           message := toString s.offline_workers ++ " workers offline" }
  else none

/-- Outcome of `upload_latest`. -/
inductive UploadOutcome where
  /-- No `pool_summary` row: logs an error and returns `False`. -/
  | noSummary : UploadOutcome
  /-- An uncaught exception (a `parse_hashrate` failure) escaped after
  the account upsert was already sent. -/
  | raised (account : AccountData) : UploadOutcome
  /-- The full set of remote payloads sent in one upload. -/
  | ok (account : AccountData) (hashrate : HashrateData)
       (deviceBatches : List (List DeviceData)) (income : List IncomeData)
       (alert : Option AlertData) : UploadOutcome
deriving DecidableEq, Repr

/-- `upload_latest`: select the newest summary row (across the whole
table), upsert the account, insert the hashrate sample, send the
devices of the rows sharing the global maximum `worker_status`
timestamp (first 200, in batches of 50), translate the 30 most recent
earnings, and upsert the offline alert.  All selection queries are
pool-agnostic. -/
def upload_latest (cfg : UploaderCfg) (db : LocalDB) : UploadOutcome :=
  match latestSummary db.pool_summary with
  | none => .noSummary
  | some s =>
    let account := accountPayload cfg s
    match hashratePayload cfg s with
    | none => .raised account
    | some h =>
      .ok account h
        (chunks 50 (((currentWorkers db.worker_status).take 200).map (devicePayload cfg)))
        (incomeRecords cfg db.daily_earnings)
        (alertPayload cfg s)

/-- Relabel every row's `pool_id` (used to state that `upload_latest`
never consults `pool_id`). -/
def mapPoolDB (f : String → String) (db : LocalDB) : LocalDB :=
  { pool_metadata := db.pool_metadata.map (fun r => { r with pool_id := f r.pool_id }),
    pool_summary := db.pool_summary.map (fun r => { r with pool_id := f r.pool_id }),
    worker_status := db.worker_status.map (fun r => { r with pool_id := f r.pool_id }),
    daily_earnings := db.daily_earnings.map (fun r => { r with pool_id := f r.pool_id }),
    anomaly_log := db.anomaly_log.map (fun r => { r with pool_id := f r.pool_id }) }

/-! ## Shared lemmas -/

theorem pyFloatOfToken_nonneg {l : List Char} {v : ℚ}
    (h : pyFloatOfToken l = some v) : 0 ≤ v := by
  unfold pyFloatOfToken at h
  split at h
  · simp only [Option.some.injEq] at h
    subst h
    positivity
  · exact absurd h (by simp)

theorem convFactor_pos (u : String) : 0 < convFactor u := by
  unfold convFactor
  split <;> norm_num
  split <;> norm_num
  split <;> norm_num
  split <;> norm_num

theorem parse_hashrate_to_ths_nonneg {s : String} {q : ℚ}
    (h : parse_hashrate_to_ths s = some q) : 0 ≤ q := by
  unfold parse_hashrate_to_ths at h
  split at h
  · simp only [Option.some.injEq] at h
    exact h.le
  · rcases hre : reSearch s.data with _ | ⟨num, u⟩ <;> simp only [hre] at h
    · simp only [Option.some.injEq] at h
      exact h.le
    · rcases hpf : pyFloatOfToken num with _ | v <;> rw [hpf] at h
      · exact absurd h (by simp)
      · simp only [Option.map_some', Option.some.injEq] at h
        subst h
        exact mul_nonneg (pyFloatOfToken_nonneg hpf) (convFactor_pos u).le

theorem pyInt_zero : pyInt 0 = 0 := by decide

theorem pyInt_eq_zero_of_lt_one {q : ℚ} (h0 : 0 ≤ q) (h1 : q < 1) : pyInt q = 0 := by
  unfold pyInt
  exact Int.tdiv_eq_zero_of_lt (Rat.num_nonneg.mpr h0) (Rat.lt_one_iff_num_lt_denom.mp h1)

theorem parse_hashrate_eq_map_pyInt (s : String) :
    parse_hashrate s = (parse_hashrate_to_ths s).map pyInt := by
  unfold parse_hashrate parse_hashrate_to_ths
  split
  · simp [pyInt_zero]
  · rcases hre : reSearch s.data with _ | ⟨num, u⟩ <;> simp only [hre]
    · simp [pyInt_zero]
    · rcases pyFloatOfToken num with _ | v <;> simp

/-- C10: for every hashrate string, the Synchronizer's `parse_hashrate`
equals the integer truncation toward zero of the core
`parse_hashrate_to_ths` (including raising on exactly the same inputs),
and any value strictly below 1 TH/s is reported as 0 remotely. -/
theorem upload_parse_refines_core (s : String) :
    parse_hashrate s = (parse_hashrate_to_ths s).map pyInt ∧
    (∀ q : ℚ, parse_hashrate_to_ths s = some q → q < 1 → parse_hashrate s = some 0) := by
  refine ⟨parse_hashrate_eq_map_pyInt s, ?_⟩
  intro q hq hlt
  rw [parse_hashrate_eq_map_pyInt s, hq, Option.map_some']
  rw [pyInt_eq_zero_of_lt_one (parse_hashrate_to_ths_nonneg hq) hlt]

/-- Witness for C10 at `"500 GH/s"` (locally 0.5 TH/s, remotely 0). -/
theorem upload_parse_refines_core_witness :
    parse_hashrate_to_ths "500 GH/s" = some (1/2) ∧
    parse_hashrate "500 GH/s" = some 0 := by
  have hp : parse_hashrate_to_ths "500 GH/s" = some (1/2) := by
    simp +decide [parse_hashrate_to_ths, reSearch, matchAt, matchUnit, convFactor,
      pyFloatOfToken, digitsVal, List.takeWhile_cons, List.dropWhile_cons]
    norm_num
  exact ⟨hp, (upload_parse_refines_core "500 GH/s").2 (1/2) hp (by norm_num)⟩

/-- C6: the offline-worker rule fires exactly when the offline count is
positive; severity is HIGH exactly when the count exceeds 5 (and MEDIUM
otherwise), and the description names the first 5 workers whose status
is OFFLINE in the scraped worker list. -/
theorem offline_rule_characterization (cnt : Int) (ws : List WorkerInfo) :
    ((checkOffline cnt ws).isSome ↔ 0 < cnt) ∧
    (∀ a, checkOffline cnt ws = some a →
      (a.severity = "HIGH" ↔ 5 < cnt) ∧
      (a.severity = "MEDIUM" ↔ cnt ≤ 5) ∧
      a.description = toString cnt ++ " worker(s) offline: " ++
        String.intercalate ", "
          (((ws.filter (fun w => w.status == "OFFLINE")).map (fun w => w.name)).take 5)) := by
  constructor
  · unfold checkOffline
    split <;> simp_all
  · intro a ha
    unfold checkOffline at ha
    split at ha
    · simp only [Option.some.injEq] at ha
      subst ha
      refine ⟨?_, ?_, rfl⟩
      · by_cases h5 : (5:Int) < cnt <;> simp +decide [h5] <;> omega
      · by_cases h5 : (5:Int) < cnt <;> simp +decide [h5] <;> omega
    · exact absurd ha (by simp)

/-- Witness for C6: count 0 never fires; count 5 fires MEDIUM; count 6
fires HIGH; the description lists only the OFFLINE worker. -/
theorem offline_rule_characterization_witness :
    checkOffline 0 [⟨"w1", "OFFLINE", "", "", "", ""⟩, ⟨"w2", "ONLINE", "", "", "", ""⟩] = none ∧
    (∃ a, checkOffline 5 [⟨"w1", "OFFLINE", "", "", "", ""⟩, ⟨"w2", "ONLINE", "", "", "", ""⟩] = some a ∧
      a.severity = "MEDIUM" ∧ a.description = "5 worker(s) offline: w1") ∧
    (∃ a, checkOffline 6 [⟨"w1", "OFFLINE", "", "", "", ""⟩, ⟨"w2", "ONLINE", "", "", "", ""⟩] = some a ∧
      a.severity = "HIGH") := by
  have e5 : checkOffline 5 [⟨"w1", "OFFLINE", "", "", "", ""⟩, ⟨"w2", "ONLINE", "", "", "", ""⟩] =
      some ⟨"5 worker(s) offline: w1", "MEDIUM"⟩ := by decide
  have e6 : checkOffline 6 [⟨"w1", "OFFLINE", "", "", "", ""⟩, ⟨"w2", "ONLINE", "", "", "", ""⟩] =
      some ⟨"6 worker(s) offline: w1", "HIGH"⟩ := by decide
  refine ⟨?_, ⟨_, e5, ?_, by decide⟩, ⟨_, e6, ?_⟩⟩
  · have h0 := (offline_rule_characterization 0
      [⟨"w1", "OFFLINE", "", "", "", ""⟩, ⟨"w2", "ONLINE", "", "", "", ""⟩]).1
    cases hc : checkOffline 0 [⟨"w1", "OFFLINE", "", "", "", ""⟩, ⟨"w2", "ONLINE", "", "", "", ""⟩] with
    | none => rfl
    | some a => exact absurd (h0.mp (by simp [hc])) (by norm_num)
  · exact ((offline_rule_characterization 5 _).2 _ e5).2.1.mpr (by norm_num)
  · exact ((offline_rule_characterization 6 _).2 _ e6).1.mpr (by norm_num)

theorem earnKey_eq (r : EarningRow) (p d : String) :
    ((r.pool_id == p && r.date == d) = true) ↔ (r.pool_id = p ∧ r.date = d) := by
  simp [Bool.and_eq_true, beq_iff_eq]

theorem filter_upsertEarning (tbl : List EarningRow) (e : EarningRow) (p d : String) :
    (upsertEarning tbl e).filter (fun r => r.pool_id == p && r.date == d) =
      (if e.pool_id = p ∧ e.date = d then [e]
       else tbl.filter (fun r => r.pool_id == p && r.date == d)) := by
  unfold upsertEarning
  rw [List.filter_append, List.filter_filter]
  by_cases he : e.pool_id = p ∧ e.date = d
  · rw [if_pos he]
    obtain ⟨hp, hd⟩ := he
    subst hp
    subst hd
    simp
  · rw [if_neg he]
    have h2 : List.filter (fun r => r.pool_id == p && r.date == d) [e] = [] := by
      simp only [List.filter_cons, List.filter_nil]
      rw [if_neg]
      intro hcon
      exact he ((earnKey_eq e p d).mp hcon)
    rw [h2, List.append_nil]
    have hfun : ∀ r : EarningRow,
        ((r.pool_id == p && r.date == d) && !(r.pool_id == e.pool_id && r.date == e.date)) =
          (r.pool_id == p && r.date == d) := by
      intro r
      by_cases h1 : r.pool_id = p <;> by_cases h2 : r.date = d <;>
        by_cases h3 : r.pool_id = e.pool_id <;> by_cases h4 : r.date = e.date <;>
        simp_all
    rw [funext hfun]

/-- Number of `daily_earnings` rows for one `(pool_id, date)` key. -/
def earnKeyCount (tbl : List EarningRow) (p d : String) : Nat :=
  (tbl.filter (fun r => r.pool_id == p && r.date == d)).length

theorem applyWrite_earn_inv (db : LocalDB) (w : TableWrite)
    (hinv : ∀ p d, earnKeyCount db.daily_earnings p d ≤ 1) :
    ∀ p d, earnKeyCount (applyWrite db w).daily_earnings p d ≤ 1 := by
  intro p d
  cases w with
  | summary r => exact hinv p d
  | worker r => exact hinv p d
  | earning r =>
    show earnKeyCount (upsertEarning db.daily_earnings r) p d ≤ 1
    unfold earnKeyCount
    rw [filter_upsertEarning]
    split
    · simp
    · exact hinv p d

theorem runWrites_earn_inv (fail : Nat → Bool) (ws : List TableWrite) :
    ∀ (i : Nat) (db db' : LocalDB), runWrites fail i db ws = some db' →
      (∀ p d, earnKeyCount db.daily_earnings p d ≤ 1) →
      (∀ p d, earnKeyCount db'.daily_earnings p d ≤ 1) := by
  induction ws with
  | nil =>
    intro i db db' h hinv
    unfold runWrites at h
    simp only [Option.some.injEq] at h
    subst h
    exact hinv
  | cons w ws ih =>
    intro i db db' h hinv
    unfold runWrites at h
    split at h
    · exact absurd h (by simp)
    · exact ih _ _ _ h (applyWrite_earn_inv db w hinv)

/-- C3: the `(pool_id, date)` key is unique in `daily_earnings` —
every committed scrape cycle preserves "at most one row per key" — and
re-persisting a key replaces the stored row: after two upserts of the
same key the rows for that key are exactly the second upsert's row. -/
theorem daily_earnings_last_write_wins
    (fail : Nat → Bool) (pid obs : String) (ts : Nat) (db db' : LocalDB) (d : ScrapeData)
    (tbl : List EarningRow) (e1 e2 : EarningRow) (p dt : String) :
    (save_to_database fail pid obs ts db d = (db', true) →
      (∀ a b, earnKeyCount db.daily_earnings a b ≤ 1) →
      (∀ a b, earnKeyCount db'.daily_earnings a b ≤ 1)) ∧
    (e1.pool_id = p → e1.date = dt → e2.pool_id = p → e2.date = dt →
      (upsertEarning (upsertEarning tbl e1) e2).filter
          (fun r => r.pool_id == p && r.date == dt) = [e2] ∧
      earnKeyCount (upsertEarning (upsertEarning tbl e1) e2) p dt = 1) := by
  constructor
  · intro hsave hinv
    unfold save_to_database at hsave
    rcases hrw : runWrites fail 0 db (cycleWrites pid obs ts d) with _ | staged <;>
      rw [hrw] at hsave
    · exact absurd hsave (by simp)
    · simp only [Prod.mk.injEq] at hsave
      rw [← hsave.1]
      exact runWrites_earn_inv fail _ 0 db staged hrw hinv
  · intro _ _ h2p h2d
    have hf : (upsertEarning (upsertEarning tbl e1) e2).filter
        (fun r => r.pool_id == p && r.date == dt) = [e2] := by
      rw [filter_upsertEarning]
      rw [if_pos ⟨h2p, h2d⟩]
    exact ⟨hf, by unfold earnKeyCount; rw [hf]; rfl⟩

/-- Witness for C3: two upserts of date `1/1/2024` for pool `a` with
different values leave exactly the second row, and a committed cycle
from the empty store keeps the key unique. -/
theorem daily_earnings_last_write_wins_witness :
    (upsertEarning (upsertEarning [] ⟨"a", "u", "1/1/2024", "1 BTC", "10 TH/s"⟩)
        ⟨"a", "u", "1/1/2024", "2 BTC", "12 TH/s"⟩).filter
      (fun r => r.pool_id == "a" && r.date == "1/1/2024") =
      [⟨"a", "u", "1/1/2024", "2 BTC", "12 TH/s"⟩] ∧
    earnKeyCount (upsertEarning (upsertEarning [] ⟨"a", "u", "1/1/2024", "1 BTC", "10 TH/s"⟩)
        ⟨"a", "u", "1/1/2024", "2 BTC", "12 TH/s"⟩) "a" "1/1/2024" = 1 ∧
    earnKeyCount (save_to_database (fun _ => false) "a" "u" 1 ⟨[], [], [], [], []⟩
        ⟨none, [], [⟨"1/1/2024", "2 BTC", "12 TH/s"⟩]⟩).1.daily_earnings "a" "1/1/2024" ≤ 1 := by
  have h := daily_earnings_last_write_wins (fun _ => false) "a" "u" 1 ⟨[], [], [], [], []⟩
    (save_to_database (fun _ => false) "a" "u" 1 ⟨[], [], [], [], []⟩
      ⟨none, [], [⟨"1/1/2024", "2 BTC", "12 TH/s"⟩]⟩).1
    ⟨none, [], [⟨"1/1/2024", "2 BTC", "12 TH/s"⟩]⟩ []
    ⟨"a", "u", "1/1/2024", "1 BTC", "10 TH/s"⟩ ⟨"a", "u", "1/1/2024", "2 BTC", "12 TH/s"⟩
    "a" "1/1/2024"
  obtain ⟨hfil, hcnt⟩ := h.2 rfl rfl rfl rfl
  refine ⟨hfil, hcnt, ?_⟩
  exact h.1 (by decide) (fun a b => by simp [earnKeyCount]) "a" "1/1/2024"

theorem runWrites_none_of_fail (fail : Nat → Bool) (ws : List TableWrite) :
    ∀ (i : Nat) (db : LocalDB), (∃ j, j < ws.length ∧ fail (i + j) = true) →
      runWrites fail i db ws = none := by
  induction ws with
  | nil =>
    intro i db hj
    obtain ⟨j, hj, _⟩ := hj
    exact absurd hj (by simp)
  | cons w ws ih =>
    intro i db hj
    obtain ⟨j, hj, hf⟩ := hj
    unfold runWrites
    by_cases h0 : fail i
    · simp [h0]
    · rw [if_neg h0]
      apply ih
      cases j with
      | zero =>
        rw [Nat.add_zero] at hf
        exact absurd hf h0
      | succ j =>
        refine ⟨j, by simpa using hj, ?_⟩
        have harith : i + 1 + j = i + (j + 1) := by omega
        rw [harith]
        exact hf

/-- C7: if any table write of one scrape cycle fails, the committed
local store is exactly what it was before the cycle (no earlier write
of the cycle becomes visible) and the failure is reported upward as a
failed cycle. -/
theorem save_cycle_atomic (fail : Nat → Bool) (pid obs : String) (ts : Nat)
    (db : LocalDB) (d : ScrapeData) :
    ((∃ j, j < (cycleWrites pid obs ts d).length ∧ fail j = true) →
      save_to_database fail pid obs ts db d = (db, false)) ∧
    ((save_to_database fail pid obs ts db d).2 = false →
      (save_to_database fail pid obs ts db d).1 = db) := by
  constructor
  · intro hj
    unfold save_to_database
    rw [runWrites_none_of_fail fail _ 0 db (by simpa using hj)]
  · intro hfalse
    unfold save_to_database at hfalse ⊢
    rcases hrw : runWrites fail 0 db (cycleWrites pid obs ts d) with _ | staged <;>
      simp only [hrw] at hfalse ⊢
    exact absurd hfalse (by simp)

/-- Witness for C7: a cycle of three writes whose second write fails
leaves the empty store unchanged and reports failure. -/
theorem save_cycle_atomic_witness :
    save_to_database (fun i => i == 1) "a" "u" 1 ⟨[], [], [], [], []⟩
      ⟨some ⟨"100 TH/s", "100 TH/s", 1, 0, "", ""⟩,
       [⟨"w1", "ONLINE", "", "", "", ""⟩],
       [⟨"1/1/2024", "1 BTC", "10 TH/s"⟩]⟩ = (⟨[], [], [], [], []⟩, false) := by
  exact (save_cycle_atomic (fun i => i == 1) "a" "u" 1 ⟨[], [], [], [], []⟩
    ⟨some ⟨"100 TH/s", "100 TH/s", 1, 0, "", ""⟩,
     [⟨"w1", "ONLINE", "", "", "", ""⟩],
     [⟨"1/1/2024", "1 BTC", "10 TH/s"⟩]⟩).1 ⟨1, by decide, by decide⟩

theorem filter_ne_then_eq {α : Type} (getp : α → String) (l : List α) (p q : String)
    (hne : q ≠ p) :
    (l.filter (fun r => !(getp r == p))).filter (fun r => getp r == q) =
      l.filter (fun r => getp r == q) := by
  rw [List.filter_filter]
  have hfun : ∀ r, ((getp r == q) && !(getp r == p)) = (getp r == q) := by
    intro r
    by_cases h1 : getp r = q <;> by_cases h2 : getp r = p <;> simp_all
  rw [funext hfun]

theorem mem_filter_ne {α : Type} (getp : α → String) (l : List α) (p : String) :
    ∀ r ∈ l.filter (fun r => !(getp r == p)), getp r ≠ p := by
  intro r hr
  have h := (List.mem_filter.mp hr).2
  simpa using h

/-- When the commit gate passes (the pool has at least one
`anomaly_log` row, so the last DELETE's rowcount is non-zero), the
committed deletion removes every row of the pool from all five tables
and leaves every other pool's rows unchanged. -/
theorem delete_pool_of_anomalies (db : LocalDB) (p q : String) (hne : q ≠ p)
    (hanom : (db.anomaly_log.filter (fun r => r.pool_id == p)).length ≠ 0) :
    ((∀ r ∈ (delete_pool db p).pool_metadata, r.pool_id ≠ p) ∧
     (∀ r ∈ (delete_pool db p).pool_summary, r.pool_id ≠ p) ∧
     (∀ r ∈ (delete_pool db p).worker_status, r.pool_id ≠ p) ∧
     (∀ r ∈ (delete_pool db p).daily_earnings, r.pool_id ≠ p) ∧
     (∀ r ∈ (delete_pool db p).anomaly_log, r.pool_id ≠ p)) ∧
    ((delete_pool db p).pool_metadata.filter (fun r => r.pool_id == q) =
        db.pool_metadata.filter (fun r => r.pool_id == q) ∧
     (delete_pool db p).pool_summary.filter (fun r => r.pool_id == q) =
        db.pool_summary.filter (fun r => r.pool_id == q) ∧
     (delete_pool db p).worker_status.filter (fun r => r.pool_id == q) =
        db.worker_status.filter (fun r => r.pool_id == q) ∧
     (delete_pool db p).daily_earnings.filter (fun r => r.pool_id == q) =
        db.daily_earnings.filter (fun r => r.pool_id == q) ∧
     (delete_pool db p).anomaly_log.filter (fun r => r.pool_id == q) =
        db.anomaly_log.filter (fun r => r.pool_id == q)) := by
  unfold delete_pool
  rw [if_neg hanom]
  exact ⟨⟨mem_filter_ne _ _ p, mem_filter_ne _ _ p, mem_filter_ne _ _ p,
          mem_filter_ne _ _ p, mem_filter_ne _ _ p⟩,
         ⟨filter_ne_then_eq _ _ p q hne, filter_ne_then_eq _ _ p q hne,
          filter_ne_then_eq _ _ p q hne, filter_ne_then_eq _ _ p q hne,
          filter_ne_then_eq _ _ p q hne⟩⟩

/-- C8: the claim's universal removal fails on the code.  For a pool
that is present in the store (here in `pool_metadata` and
`pool_summary`) but has no `anomaly_log` rows, the last DELETE affects
0 rows, `cursor.rowcount == 0` skips the commit, the transaction is
rolled back, and every row of the pool is still in the store. -/
theorem delete_pool_skips_commit_without_anomalies :
    delete_pool
        ⟨[⟨"a", "", "", "", "", "", "", "", "", 1⟩],
         [⟨1, "a", "u", "100 TH/s", "", 1, 0, "", ""⟩], [], [], []⟩ "a" =
      ⟨[⟨"a", "", "", "", "", "", "", "", "", 1⟩],
       [⟨1, "a", "u", "100 TH/s", "", 1, 0, "", ""⟩], [], [], []⟩ ∧
    (⟨[⟨"a", "", "", "", "", "", "", "", "", 1⟩],
      [⟨1, "a", "u", "100 TH/s", "", 1, 0, "", ""⟩], [], [], []⟩ : LocalDB).pool_metadata.filter
        (fun r => r.pool_id == "a") ≠ [] := by
  exact ⟨by decide, by decide⟩

theorem insertTsDesc_head_lt (x row : SummaryRow) (rest : List SummaryRow)
    (hx : x.ts < row.ts) :
    insertTsDesc x (row :: rest) = row :: insertTsDesc x rest := by
  rw [insertTsDesc]
  rw [if_neg (by omega)]

theorem foldr_insertTsDesc_head (row : SummaryRow) (l : List SummaryRow) :
    ∀ rest : List SummaryRow, (∀ r ∈ l, r.ts < row.ts) →
      ∃ t, List.foldr insertTsDesc (row :: rest) l = row :: t := by
  induction l with
  | nil =>
    intro rest _
    exact ⟨rest, rfl⟩
  | cons x xs ih =>
    intro rest hl
    obtain ⟨t, ht⟩ := ih rest (fun r hr => hl r (List.mem_cons_of_mem x hr))
    refine ⟨insertTsDesc x t, ?_⟩
    rw [List.foldr_cons, ht, insertTsDesc_head_lt x row t (hl x (List.mem_cons_self x xs))]

theorem sortTsDesc_append_max (l : List SummaryRow) (row : SummaryRow)
    (hl : ∀ r ∈ l, r.ts < row.ts) :
    ∃ t, sortTsDesc (l ++ [row]) = row :: t := by
  unfold sortTsDesc
  rw [List.foldr_append]
  exact foldr_insertTsDesc_head row l [] hl

/-- C2: the hashrate-drop rule evaluates only with at least 2 fetched
rows (with one row it never fires, however low the current value); the
reference average is the mean of the fetched rows excluding the
newest; it fires exactly when the current value is strictly below 0.8
times that average; the drop percent is
`(avg − current) / avg × 100` and severity is HIGH exactly when the
drop percent exceeds 30; the fetch is pool-filtered, returns at most
10 rows, and the just-inserted row (of strictly maximal timestamp for
its pool) is the newest fetched one. -/
theorem hashrate_drop_rule_characterization
    (fetched : List String) (cur : String) (db : LocalDB) (p : String) (row : SummaryRow) :
    (fetched.length ≤ 1 → checkHashrateDrop fetched cur = .ok none) ∧
    (∀ (c : ℚ) (vals : List ℚ), parse_hashrate_to_ths cur = some c →
      (fetched.drop 1).mapM parse_hashrate_to_ths = some vals →
      1 < fetched.length →
      ((checkHashrateDrop fetched cur = .ok none ↔
          ¬(c < vals.sum / (vals.length : ℚ) * 0.8)) ∧
       (∀ a, checkHashrateDrop fetched cur = .ok (some a) →
         a.dropPercent = (vals.sum / (vals.length : ℚ) - c) / (vals.sum / (vals.length : ℚ)) * 100 ∧
         (a.severity = "HIGH" ↔ 30 < a.dropPercent) ∧
         (a.severity = "MEDIUM" ↔ a.dropPercent ≤ 30)))) ∧
    ((fetchRecentHashrates db p).length ≤ 10 ∧
     (row.pool_id = p →
      (∀ r ∈ db.pool_summary, r.pool_id = p → r.ts < row.ts) →
      (fetchRecentHashrates { db with pool_summary := db.pool_summary ++ [row] } p).head? =
        some row.current_hashrate)) := by
  refine ⟨?_, ?_, ?_, ?_⟩
  · intro hlen
    unfold checkHashrateDrop
    rw [if_neg (by omega)]
  · intro c vals hc hm hlen
    unfold checkHashrateDrop
    rw [if_pos hlen]
    simp only [hc, hm]
    constructor
    · by_cases hfire : c < vals.sum / (vals.length : ℚ) * 0.8
      · rw [if_pos hfire]
        simp [hfire]
      · rw [if_neg hfire]
        simp [hfire]
    · intro a ha
      by_cases hfire : c < vals.sum / (vals.length : ℚ) * 0.8
      · rw [if_pos hfire] at ha
        simp only [Except.ok.injEq, Option.some.injEq] at ha
        subst ha
        refine ⟨rfl, ?_, ?_⟩
        · by_cases h30 : 30 < (vals.sum / (vals.length : ℚ) - c) / (vals.sum / (vals.length : ℚ)) * 100 <;>
            simp +decide [h30] <;> linarith
        · by_cases h30 : 30 < (vals.sum / (vals.length : ℚ) - c) / (vals.sum / (vals.length : ℚ)) * 100 <;>
            simp +decide [h30] <;> linarith
      · rw [if_neg hfire] at ha
        exact absurd ha (by simp)
  · unfold fetchRecentHashrates
    rw [List.length_map]
    exact List.length_take_le 10 _
  · intro hrow hmax
    unfold fetchRecentHashrates
    show (((sortTsDesc ((db.pool_summary ++ [row]).filter (fun r => r.pool_id == p))).take 10).map
        (fun r => r.current_hashrate)).head? = some row.current_hashrate
    rw [List.filter_append]
    have hfr : List.filter (fun r => r.pool_id == p) [row] = [row] := by
      simp [hrow]
    rw [hfr]
    obtain ⟨t, ht⟩ := sortTsDesc_append_max (db.pool_summary.filter (fun r => r.pool_id == p)) row
      (by
        intro r hrmem
        have hmem := List.mem_filter.mp hrmem
        exact hmax r hmem.1 (by simpa using hmem.2))
    rw [ht]
    rfl

/-- Witness for C2: with prior history `[100]` and current `70` the
rule fires at drop 30% with severity MEDIUM; with a single fetched row
it does not fire even for a tiny current value; the just-inserted row
of pool `a` is the newest fetched. -/
theorem hashrate_drop_rule_characterization_witness :
    (∃ a, checkHashrateDrop ["70 TH/s", "100 TH/s"] "70 TH/s" = Except.ok (some a) ∧
      a.dropPercent = 30 ∧ a.severity = "MEDIUM") ∧
    checkHashrateDrop ["100 TH/s"] "0.001 GH/s" = Except.ok none ∧
    (fetchRecentHashrates ⟨[], [⟨1, "a", "u", "100 TH/s", "", 1, 0, "", ""⟩] ++
        [⟨2, "a", "u", "7 TH/s", "", 1, 0, "", ""⟩], [], [], []⟩ "a").head? =
      some "7 TH/s" := by
  have h70 : parse_hashrate_to_ths "70 TH/s" = some 70 := by
    simp +decide [parse_hashrate_to_ths, reSearch, matchAt, matchUnit, convFactor,
      pyFloatOfToken, digitsVal, List.takeWhile_cons, List.dropWhile_cons]
  have h100 : parse_hashrate_to_ths "100 TH/s" = some 100 := by
    simp +decide [parse_hashrate_to_ths, reSearch, matchAt, matchUnit, convFactor,
      pyFloatOfToken, digitsVal, List.takeWhile_cons, List.dropWhile_cons]
  have hm : (["100 TH/s"] : List String).mapM parse_hashrate_to_ths = some [100] := by
    simp [List.mapM, List.mapM.loop, h100]
  have he : checkHashrateDrop ["70 TH/s", "100 TH/s"] "70 TH/s" =
      Except.ok (some ⟨30, "MEDIUM"⟩) := by
    unfold checkHashrateDrop
    rw [if_pos (by norm_num)]
    simp only [List.drop_succ_cons, List.drop_zero, h70, hm]
    rw [if_pos (by norm_num)]
    norm_num
  have hthm := hashrate_drop_rule_characterization ["100 TH/s"] "0.001 GH/s"
    ⟨[], [⟨1, "a", "u", "100 TH/s", "", 1, 0, "", ""⟩], [], [], []⟩ "a"
    ⟨2, "a", "u", "7 TH/s", "", 1, 0, "", ""⟩
  refine ⟨⟨⟨30, "MEDIUM"⟩, he, rfl, rfl⟩, hthm.1 (by norm_num), ?_⟩
  exact hthm.2.2.2 rfl (by
    intro r hr hp
    simp only [List.mem_singleton] at hr
    subst hr
    norm_num)

theorem string_isEmpty_mk (l : List Char) : (String.mk l).isEmpty = l.isEmpty := by
  rcases l with _ | ⟨c, cs⟩
  · rfl
  · have h : String.mk (c :: cs) ≠ "" := by
      intro hcon
      have h2 := congrArg String.data hcon
      simp at h2
    have h3 : ¬ (String.mk (c :: cs)).isEmpty = true := fun hcon =>
      h ((String.isEmpty_iff _).mp hcon)
    simp only [List.isEmpty_cons]
    exact Bool.not_eq_true _ ▸ (by simpa using h3)

theorem takeWhile_append_all {p : Char → Bool} (v rest : List Char)
    (hv : ∀ c ∈ v, p c = true) :
    (v ++ rest).takeWhile p = v ++ rest.takeWhile p := by
  induction v with
  | nil => rfl
  | cons c cs ih =>
    rw [List.cons_append, List.takeWhile_cons, hv c (List.mem_cons_self c cs)]
    rw [ih (fun d hd => hv d (List.mem_cons_of_mem c hd))]
    rfl

theorem dropWhile_append_all {p : Char → Bool} (v rest : List Char)
    (hv : ∀ c ∈ v, p c = true) :
    (v ++ rest).dropWhile p = rest.dropWhile p := by
  induction v with
  | nil => rfl
  | cons c cs ih =>
    rw [List.cons_append, List.dropWhile_cons, hv c (List.mem_cons_self c cs)]
    simp only [if_true]
    exact ih (fun d hd => hv d (List.mem_cons_of_mem c hd))

theorem digit_isDigitOrDot {c : Char} (h : c.isDigit = true) : isDigitOrDot c = true := by
  simp [isDigitOrDot, h]

theorem matchAt_digits (v : List Char) (hne : v ≠ [])
    (hdig : ∀ c ∈ v, isDigitOrDot c = true) (r : Char) (rs : List Char)
    (hr1 : isDigitOrDot r = false) (hr2 : isPySpace r = false) :
    matchAt (v ++ r :: rs) =
      (match matchUnit (r :: rs) with
       | some u => some (v, u)
       | none => none) := by
  unfold matchAt
  have ht : (v ++ r :: rs).takeWhile isDigitOrDot = v := by
    rw [takeWhile_append_all v _ hdig]
    rw [List.takeWhile_cons, hr1]
    simp
  have hd : (v ++ r :: rs).dropWhile isDigitOrDot = r :: rs := by
    rw [dropWhile_append_all v _ hdig]
    rw [List.dropWhile_cons, hr1]
    simp
  rw [ht, hd, List.dropWhile_cons, hr2]
  simp only [Bool.false_eq_true, if_false]
  rw [if_neg (by simp [List.isEmpty_iff, hne])]

theorem reSearch_digits_some (v : List Char) (hne : v ≠ [])
    (hdig : ∀ c ∈ v, isDigitOrDot c = true) (r : Char) (rs : List Char)
    (hr1 : isDigitOrDot r = false) (hr2 : isPySpace r = false)
    (u : String) (hu : matchUnit (r :: rs) = some u) :
    reSearch (v ++ r :: rs) = some (v, u) := by
  have hma : matchAt (v ++ r :: rs) = some (v, u) := by
    rw [matchAt_digits v hne hdig r rs hr1 hr2, hu]
  obtain ⟨c0, v', rfl⟩ := List.exists_cons_of_ne_nil hne
  simp only [List.cons_append] at hma ⊢
  rw [reSearch]
  rw [hma]

theorem pyFloatOfToken_digits (v : List Char) (hne : v ≠ [])
    (hdig : ∀ c ∈ v, c.isDigit = true) :
    pyFloatOfToken v = some (digitsVal v : ℚ) := by
  have hnotdot : ∀ c ∈ v, c ≠ '.' := by
    intro c hc hcon
    have := hdig c hc
    rw [hcon] at this
    exact absurd this (by decide)
  unfold pyFloatOfToken
  rw [if_pos]
  · have ht : v.takeWhile (fun c => c ≠ '.') = v :=
      List.takeWhile_eq_self_iff.mpr (by
        intro c hc
        simpa using hnotdot c hc)
    have hd : v.dropWhile (fun c => c ≠ '.') = [] :=
      List.dropWhile_eq_nil_iff.mpr (by
        intro c hc
        simpa using hnotdot c hc)
    rw [ht, hd]
    simp [digitsVal]
  · obtain ⟨c0, v', rfl⟩ := List.exists_cons_of_ne_nil hne
    simp only [Bool.and_eq_true, decide_eq_true_eq]
    refine And.intro (And.intro ?_ ?_) ?_
    · have : (c0 :: v').count '.' = 0 := by
        rw [List.count_eq_zero]
        intro hcon
        exact hnotdot '.' hcon rfl
      omega
    · exact List.any_eq_true.mpr ⟨c0, List.mem_cons_self c0 v', hdig c0 (List.mem_cons_self c0 v')⟩
    · exact List.all_eq_true.mpr (fun c hc => digit_isDigitOrDot (hdig c hc))

theorem matchUnit_foreign (c : Char) (hP : c ≠ 'P') (hT : c ≠ 'T') (hG : c ≠ 'G')
    (hM : c ≠ 'M') : matchUnit (c :: 'H' :: '/' :: 's' :: []) = none := by
  unfold matchUnit
  split <;> simp_all

theorem reSearch_none_foreign (c : Char) (hc1 : isDigitOrDot c = false)
    (hc2 : isPySpace c = false) (hP : c ≠ 'P') (hT : c ≠ 'T') (hG : c ≠ 'G')
    (hM : c ≠ 'M') :
    ∀ v : List Char, (∀ d ∈ v, isDigitOrDot d = true) →
      reSearch (v ++ c :: 'H' :: '/' :: 's' :: []) = none := by
  intro v
  induction v with
  | nil =>
    intro _
    have h1 : matchAt (c :: 'H' :: '/' :: 's' :: []) = none := by
      unfold matchAt
      rw [List.takeWhile_cons, hc1]
      simp
    rw [List.nil_append, reSearch, h1]
    decide
  | cons d ds ih =>
    intro hd
    have hdd : (d :: ds) ≠ [] := by simp
    have hma : matchAt ((d :: ds) ++ c :: 'H' :: '/' :: 's' :: []) = none := by
      rw [matchAt_digits (d :: ds) hdd hd c _ hc1 hc2,
        matchUnit_foreign c hP hT hG hM]
    simp only [List.cons_append] at hma ⊢
    rw [reSearch, hma]
    exact ih (fun e he => hd e (List.mem_cons_of_mem d he))

/-- The unit multiplier table m(U) as the spec states it
(P→1000, T→1, G→0.001, M→0.000001). -/
def unitMul (U : Char) : ℚ :=
  if U = 'P' then 1000 else if U = 'T' then 1
  else if U = 'G' then 1 / 1000 else if U = 'M' then 1 / 1000000 else 1

/-- C5 (amended): for every numeric token v that `float` accepts
(decimal digits with at most one dot, of value q) and every
U ∈ {P,T,G,M}, normalizing "vUH/s" yields q × m(U) with m(P)=1000,
m(T)=1, m(G)=0.001, m(M)=0.000001; with the unit letter absent
("vH/s") it yields q × 1; but for any other unit character (not a
digit, dot, whitespace or one of P,T,G,M) the numeric/unit pattern
fails to match and normalization yields 0, not q × 1. -/
theorem unit_conversion_amended (v : List Char) (q : ℚ)
    (hq : pyFloatOfToken v = some q) (U c : Char)
    (hU : U = 'P' ∨ U = 'T' ∨ U = 'G' ∨ U = 'M')
    (hc1 : isDigitOrDot c = false) (hc2 : isPySpace c = false)
    (hcP : c ≠ 'P') (hcT : c ≠ 'T') (hcG : c ≠ 'G') (hcM : c ≠ 'M') :
    parse_hashrate_to_ths (String.mk (v ++ U :: 'H' :: '/' :: 's' :: [])) =
      some (q * unitMul U) ∧
    parse_hashrate_to_ths (String.mk (v ++ 'H' :: '/' :: 's' :: [])) =
      some (q * 1) ∧
    parse_hashrate_to_ths (String.mk (v ++ c :: 'H' :: '/' :: 's' :: [])) = some 0 := by
  have hguard : (decide (v.count '.' ≤ 1) && v.any Char.isDigit && v.all isDigitOrDot) = true := by
    unfold pyFloatOfToken at hq
    split at hq
    · rename_i h
      exact h
    · exact absurd hq (by simp)
  have hparts : v.count '.' ≤ 1 ∧ v.any Char.isDigit = true ∧ v.all isDigitOrDot = true := by
    simpa [Bool.and_eq_true, decide_eq_true_eq, and_assoc] using hguard
  have hdd : ∀ d ∈ v, isDigitOrDot d = true := List.all_eq_true.mp hparts.2.2
  have hne : v ≠ [] := by
    obtain ⟨x, hx, _⟩ := List.any_eq_true.mp hparts.2.1
    intro hcon
    rw [hcon] at hx
    exact absurd hx (by simp)
  have hnonempty : ∀ tail : List Char, (String.mk (v ++ tail)).isEmpty = false := by
    intro tail
    rw [string_isEmpty_mk]
    obtain ⟨c0, v', rfl⟩ := List.exists_cons_of_ne_nil hne
    rfl
  refine ⟨?_, ?_, ?_⟩
  · rcases hU with rfl | rfl | rfl | rfl
    · unfold parse_hashrate_to_ths
      rw [hnonempty]
      simp only [Bool.false_eq_true, if_false]
      rw [reSearch_digits_some v hne hdd 'P' ('H' :: '/' :: 's' :: [])
        (by decide) (by decide) "PH/s" rfl]
      simp only [hq, Option.map_some', Option.some.injEq]
      simp +decide [convFactor, unitMul]
    · unfold parse_hashrate_to_ths
      rw [hnonempty]
      simp only [Bool.false_eq_true, if_false]
      rw [reSearch_digits_some v hne hdd 'T' ('H' :: '/' :: 's' :: [])
        (by decide) (by decide) "TH/s" rfl]
      simp only [hq, Option.map_some', Option.some.injEq]
      simp +decide [convFactor, unitMul]
    · unfold parse_hashrate_to_ths
      rw [hnonempty]
      simp only [Bool.false_eq_true, if_false]
      rw [reSearch_digits_some v hne hdd 'G' ('H' :: '/' :: 's' :: [])
        (by decide) (by decide) "GH/s" rfl]
      simp only [hq, Option.map_some', Option.some.injEq]
      simp +decide [convFactor, unitMul]
    · unfold parse_hashrate_to_ths
      rw [hnonempty]
      simp only [Bool.false_eq_true, if_false]
      rw [reSearch_digits_some v hne hdd 'M' ('H' :: '/' :: 's' :: [])
        (by decide) (by decide) "MH/s" rfl]
      simp only [hq, Option.map_some', Option.some.injEq]
      simp +decide [convFactor, unitMul]
  · unfold parse_hashrate_to_ths
    rw [hnonempty]
    simp only [Bool.false_eq_true, if_false]
    rw [reSearch_digits_some v hne hdd 'H' ('/' :: 's' :: [])
      (by decide) (by decide) "H/s" rfl]
    simp only [hq, Option.map_some', Option.some.injEq]
    simp +decide [convFactor]
  · unfold parse_hashrate_to_ths
    rw [hnonempty]
    simp only [Bool.false_eq_true, if_false]
    rw [reSearch_none_foreign c hc1 hc2 hcP hcT hcG hcM v hdd]

/-- C5 counterexample: in "5KH/s" the unit letter K is outside
{P,T,G,M}; the claim predicts 5 × 1 = 5 but normalization yields 0. -/
theorem unit_conversion_counterexample :
    parse_hashrate_to_ths "5KH/s" = some 0 ∧ (0 : ℚ) ≠ 5 := by
  exact ⟨by decide, by norm_num⟩

/-- Witness for C5 (amended) at the decimal numeral v = "13.5"
(value 27/2), U = 'T', and foreign letter 'K'. -/
theorem unit_conversion_amended_witness :
    parse_hashrate_to_ths (String.mk ['1', '3', '.', '5', 'T', 'H', '/', 's']) = some (27/2) ∧
    parse_hashrate_to_ths (String.mk ['1', '3', '.', '5', 'H', '/', 's']) = some (27/2) ∧
    parse_hashrate_to_ths (String.mk ['1', '3', '.', '5', 'K', 'H', '/', 's']) = some 0 := by
  have hq : pyFloatOfToken ['1', '3', '.', '5'] = some (27/2) := by
    simp +decide [pyFloatOfToken, digitsVal, List.takeWhile_cons, List.dropWhile_cons]
    norm_num
  have h := unit_conversion_amended ['1', '3', '.', '5'] (27/2) hq 'T' 'K'
    (Or.inr (Or.inl rfl)) (by decide) (by decide) (by decide) (by decide) (by decide) (by decide)
  obtain ⟨h1, h2, h3⟩ := h
  simp only [List.cons_append, List.nil_append] at h1 h2 h3
  refine ⟨?_, ?_, h3⟩
  · rw [h1]
    simp +decide [unitMul]
  · rw [h2]
    norm_num

theorem chunksGo_flatten {α : Type} (n : Nat) (hn : 0 < n) :
    ∀ (fuel : Nat) (l : List α), l.length ≤ fuel → (chunksGo n fuel l).flatten = l := by
  intro fuel
  induction fuel with
  | zero =>
    intro l hl
    cases l with
    | nil => rfl
    | cons x xs => simp at hl
  | succ f ih =>
    intro l hl
    cases l with
    | nil => rfl
    | cons x xs =>
      show ((x :: xs).take n :: chunksGo n f ((x :: xs).drop n)).flatten = x :: xs
      rw [List.flatten_cons, ih _ (by rw [List.length_drop]; simp at hl ⊢; omega)]
      exact List.take_append_drop n (x :: xs)

theorem chunksGo_mem_le {α : Type} (n : Nat) :
    ∀ (fuel : Nat) (l : List α), ∀ b ∈ chunksGo n fuel l, b.length ≤ n := by
  intro fuel
  induction fuel with
  | zero =>
    intro l b hb
    cases l with
    | nil => exact absurd hb (by simp [chunksGo])
    | cons x xs => exact absurd hb (by simp [chunksGo])
  | succ f ih =>
    intro l b hb
    cases l with
    | nil => exact absurd hb (by simp [chunksGo])
    | cons x xs =>
      rcases List.mem_cons.mp hb with rfl | hmem
      · exact List.length_take_le n (x :: xs)
      · exact ih _ b hmem

theorem chunks_flatten {α : Type} (n : Nat) (hn : 0 < n) (l : List α) :
    (chunks n l).flatten = l :=
  chunksGo_flatten n hn l.length l le_rfl

theorem chunks_mem_le {α : Type} (n : Nat) (l : List α) :
    ∀ b ∈ chunks n l, b.length ≤ n :=
  chunksGo_mem_le n l.length l

/-- The device identity as the claim words it: the fixed prefix, the
account name verbatim, and the worker name with its whitespace
characters replaced by underscores. -/
def device_id_claim (account worker : String) : String :=
  "KZ_" ++ account ++ "_" ++
    String.mk (worker.data.map (fun c => if isPySpace c then '_' else c))

/-- C9 counterexample: for account "a b" and worker "w" the code
replaces the space inside the account name too, so the derived identity
is "KZ_a_b_w", not the claim's "KZ_a b_w". -/
theorem device_identity_counterexample :
    device_id "a b" "w" = "KZ_a_b_w" ∧
    device_id_claim "a b" "w" = "KZ_a b_w" ∧
    device_id "a b" "w" ≠ device_id_claim "a b" "w" := by
  exact ⟨by decide, by decide, by decide⟩

theorem string_eq_of_data (a b : String) (h : a.data = b.data) : a = b := by
  cases a
  cases b
  exact congrArg String.mk h

/-- C9 (amended): the device identity is the space→underscore
substitution applied to the whole "KZ_{account}_{worker}" string — it
agrees with the claim's account-untouched reading whenever the account
name contains no space and the worker name's whitespace consists of
spaces; the spec's example holds; at most the first 200 workers are
uploaded, split into batches of at most 50 whose concatenation is
exactly the uploaded device list. -/
theorem device_identity_amended (cfg : UploaderCfg) (account worker : String)
    (ws : List WorkerRow) :
    ((¬ ' ' ∈ account.data) → (∀ c ∈ worker.data, isPySpace c = true → c = ' ') →
      device_id account worker = device_id_claim account worker) ∧
    device_id "acct-a" "Rig 01" = "KZ_acct-a_Rig_01" ∧
    (chunks 50 ((ws.take 200).map (devicePayload cfg))).flatten =
      (ws.take 200).map (devicePayload cfg) ∧
    (∀ b ∈ chunks 50 ((ws.take 200).map (devicePayload cfg)), b.length ≤ 50) ∧
    ((ws.take 200).map (devicePayload cfg)).length ≤ 200 := by
  refine ⟨?_, by decide, ?_, ?_, ?_⟩
  · intro hacc hwork
    apply string_eq_of_data
    unfold device_id device_id_claim replaceSpaces
    simp only [String.data_append, List.map_append]
    have hkz : (['K', 'Z', '_'] : List Char).map (fun c => if c = ' ' then '_' else c) =
        ['K', 'Z', '_'] := by decide
    have hus : (['_'] : List Char).map (fun c => if c = ' ' then '_' else c) = ['_'] := by
      decide
    have hac : account.data.map (fun c => if c = ' ' then '_' else c) = account.data := by
      have h1 : account.data.map (fun c => if c = ' ' then '_' else c) =
          account.data.map id := by
        apply List.map_congr_left
        intro c hc
        rw [if_neg (show ¬(c = ' ') from fun hcon => hacc (hcon ▸ hc))]
        rfl
      rw [h1, List.map_id]
    have hw : worker.data.map (fun c => if c = ' ' then '_' else c) =
        worker.data.map (fun c => if isPySpace c then '_' else c) := by
      apply List.map_congr_left
      intro c hc
      by_cases hsp : isPySpace c = true
      · have hceq := hwork c hc hsp
        rw [hceq]
        decide
      · have hc' : ¬(c = ' ') := fun hcon => hsp (by rw [hcon]; decide)
        rw [if_neg hc', if_neg hsp]
    rw [hkz, hus, hac, hw]
  · exact chunks_flatten 50 (by omega) _
  · exact chunks_mem_le 50 _
  · rw [List.length_map]
    exact List.length_take_le 200 ws

/-- Witness for C9 (amended) at the spec's example and a one-worker
batch. -/
theorem device_identity_amended_witness :
    device_id "acct-a" "Rig 01" = "KZ_acct-a_Rig_01" ∧
    device_id "acct-a" "Rig 01" = device_id_claim "acct-a" "Rig 01" ∧
    (chunks 50 (([⟨5, "a", "u", "Rig 01", "ONLINE", "", "", "", ""⟩].take 200).map
        (devicePayload ⟨"acct-a", "co", "cl", "KZ", "site"⟩))).flatten =
      ([(⟨5, "a", "u", "Rig 01", "ONLINE", "", "", "", ""⟩ : WorkerRow)].take 200).map
        (devicePayload ⟨"acct-a", "co", "cl", "KZ", "site"⟩) := by
  have h := device_identity_amended ⟨"acct-a", "co", "cl", "KZ", "site"⟩ "acct-a" "Rig 01"
    [⟨5, "a", "u", "Rig 01", "ONLINE", "", "", "", ""⟩]
  exact ⟨h.2.1, h.1 (by decide) (by decide), h.2.2.1⟩

theorem latestSummary_map_pool (f : String → String) :
    ∀ (l : List SummaryRow) (acc : Option SummaryRow),
      List.foldl (fun acc r =>
          match acc with
          | none => some r
          | some m => if m.ts < r.ts then some r else some m)
        (acc.map (fun r => { r with pool_id := f r.pool_id }))
        (l.map (fun r => { r with pool_id := f r.pool_id })) =
      (List.foldl (fun acc r =>
          match acc with
          | none => some r
          | some m => if m.ts < r.ts then some r else some m) acc l).map
        (fun r => { r with pool_id := f r.pool_id }) := by
  intro l
  induction l with
  | nil => intro acc; rfl
  | cons x xs ih =>
    intro acc
    simp only [List.map_cons, List.foldl_cons]
    have hstep : (match acc.map (fun r => { r with pool_id := f r.pool_id }) with
        | none => some ({ x with pool_id := f x.pool_id } : SummaryRow)
        | some m => if m.ts < ({ x with pool_id := f x.pool_id } : SummaryRow).ts then
            some ({ x with pool_id := f x.pool_id } : SummaryRow) else some m) =
        ((match acc with
          | none => some x
          | some m => if m.ts < x.ts then some x else some m : Option SummaryRow)).map
          (fun r => ({ r with pool_id := f r.pool_id } : SummaryRow)) := by
      cases acc with
      | none => rfl
      | some m =>
        show (if m.ts < x.ts then some ({ x with pool_id := f x.pool_id } : SummaryRow)
              else some ({ m with pool_id := f m.pool_id } : SummaryRow)) =
          (if m.ts < x.ts then some x else some m).map
            (fun r => ({ r with pool_id := f r.pool_id } : SummaryRow))
        by_cases h : m.ts < x.ts
        · rw [if_pos h, if_pos h]
          rfl
        · rw [if_neg h, if_neg h]
          rfl
    rw [hstep]
    exact ih _

theorem maxWorkerTs_foldl_map (f : String → String) :
    ∀ (l : List WorkerRow) (acc : Option Nat),
      List.foldl (fun acc r =>
          match acc with
          | none => some r.ts
          | some m => some (max m r.ts)) acc
        (l.map (fun r => { r with pool_id := f r.pool_id })) =
      List.foldl (fun acc r =>
          match acc with
          | none => some r.ts
          | some m => some (max m r.ts)) acc l := by
  intro l
  induction l with
  | nil => intro acc; rfl
  | cons x xs ih =>
    intro acc
    cases acc with
    | none =>
      simp only [List.map_cons, List.foldl_cons]
      rw [ih]
    | some m =>
      simp only [List.map_cons, List.foldl_cons]
      rw [ih]

theorem maxWorkerTs_map_pool (f : String → String) (l : List WorkerRow) :
    maxWorkerTs (l.map (fun r => { r with pool_id := f r.pool_id })) = maxWorkerTs l := by
  unfold maxWorkerTs
  exact maxWorkerTs_foldl_map f l none

theorem latestSummary_map (f : String → String) (l : List SummaryRow) :
    latestSummary (l.map (fun r => { r with pool_id := f r.pool_id })) =
      (latestSummary l).map (fun r => { r with pool_id := f r.pool_id }) := by
  unfold latestSummary
  exact latestSummary_map_pool f l none

theorem currentWorkers_map_pool (f : String → String) (l : List WorkerRow) :
    currentWorkers (l.map (fun r => { r with pool_id := f r.pool_id })) =
      (currentWorkers l).map (fun r => { r with pool_id := f r.pool_id }) := by
  unfold currentWorkers
  rw [maxWorkerTs_map_pool]
  rcases hm : maxWorkerTs l with _ | m
  · rfl
  · show List.filter (fun r => r.ts == m)
        (l.map (fun r => ({ r with pool_id := f r.pool_id } : WorkerRow))) =
      (List.filter (fun r => r.ts == m) l).map
        (fun r => ({ r with pool_id := f r.pool_id } : WorkerRow))
    rw [List.filter_map]
    rfl

theorem insertDateDesc_map_pool (f : String → String) (e : EarningRow) (l : List EarningRow) :
    insertDateDesc { e with pool_id := f e.pool_id }
        (l.map (fun r => { r with pool_id := f r.pool_id })) =
      (insertDateDesc e l).map (fun r => { r with pool_id := f r.pool_id }) := by
  induction l with
  | nil => rfl
  | cons x xs ih =>
    simp only [List.map_cons]
    rw [insertDateDesc]
    show (if strLtB x.date.data e.date.data || (x.date == e.date) then
        ({ e with pool_id := f e.pool_id } : EarningRow) ::
          ({ x with pool_id := f x.pool_id } : EarningRow) ::
          xs.map (fun r => { r with pool_id := f r.pool_id })
      else ({ x with pool_id := f x.pool_id } : EarningRow) ::
        insertDateDesc { e with pool_id := f e.pool_id }
          (xs.map (fun r => { r with pool_id := f r.pool_id }))) = _
    rw [insertDateDesc]
    by_cases h : (strLtB x.date.data e.date.data || (x.date == e.date)) = true
    · rw [if_pos h, if_pos h]
      rfl
    · rw [if_neg h, if_neg h]
      rw [List.map_cons, ih]

theorem sortDateDesc_map_pool (f : String → String) (l : List EarningRow) :
    (l.map (fun r => { r with pool_id := f r.pool_id })).foldr insertDateDesc [] =
      (l.foldr insertDateDesc []).map (fun r => { r with pool_id := f r.pool_id }) := by
  induction l with
  | nil => rfl
  | cons x xs ih =>
    simp only [List.map_cons, List.foldr_cons]
    rw [ih, insertDateDesc_map_pool]

theorem incomeRecords_map_pool (cfg : UploaderCfg) (f : String → String)
    (l : List EarningRow) :
    incomeRecords cfg (l.map (fun r => { r with pool_id := f r.pool_id })) =
      incomeRecords cfg l := by
  unfold incomeRecords recentEarnings
  rw [sortDateDesc_map_pool, ← List.map_take, List.filterMap_map]
  rfl

/-- C1 counterexample: with pools `a` and `b` in the store, the upload
reads pool `b`'s newer summary row even when the account under upload
corresponds to pool `a` — adding another pool's row changes the
payloads, so rows of other pools do influence them. -/
theorem upload_pool_isolation_counterexample :
    upload_latest ⟨"acct", "co", "cl", "KZ", "site"⟩
        ⟨[], [⟨1, "a", "u", "x", "x", 1, 0, "", ""⟩], [], [], []⟩ ≠
      upload_latest ⟨"acct", "co", "cl", "KZ", "site"⟩
        ⟨[], [⟨1, "a", "u", "x", "x", 1, 0, "", ""⟩, ⟨2, "b", "u", "x", "x", 5, 0, "", ""⟩],
         [], [], []⟩ ∧
    latestSummary [⟨1, "a", "u", "x", "x", 1, 0, "", ""⟩, ⟨2, "b", "u", "x", "x", 5, 0, "", ""⟩] =
      some ⟨2, "b", "u", "x", "x", 5, 0, "", ""⟩ := by
  exact ⟨by decide, by decide⟩

/-- C1 (amended): `upload_latest` never consults `pool_id` at all — its
payloads are invariant under any relabelling of every row's `pool_id` —
because its three queries select by recency across the whole store
(globally newest summary row, worker rows at the global maximum
timestamp, the 30 most recent earnings rows), not by pool. -/
theorem upload_latest_pool_blind (cfg : UploaderCfg) (f : String → String) (db : LocalDB) :
    upload_latest cfg (mapPoolDB f db) = upload_latest cfg db := by
  unfold upload_latest mapPoolDB
  simp only [latestSummary_map]
  rcases hls : latestSummary db.pool_summary with _ | s
  · rfl
  · simp only [Option.map_some']
    have hacc : accountPayload cfg ({ s with pool_id := f s.pool_id } : SummaryRow) =
        accountPayload cfg s := rfl
    have hhash : hashratePayload cfg ({ s with pool_id := f s.pool_id } : SummaryRow) =
        hashratePayload cfg s := rfl
    have halert : alertPayload cfg ({ s with pool_id := f s.pool_id } : SummaryRow) =
        alertPayload cfg s := rfl
    rw [hacc, hhash, halert, currentWorkers_map_pool, incomeRecords_map_pool,
      ← List.map_take, List.map_map]
    have hdp : (devicePayload cfg) ∘
        (fun r : WorkerRow => ({ r with pool_id := f r.pool_id } : WorkerRow)) =
        devicePayload cfg := funext (fun r => rfl)
    rw [hdp]

/-- C4 counterexample: on "1.2.3 TH/s" the regex matches numeric token
"1.2.3" (two dots), `float` raises `ValueError`, and normalization does
not return a numeric value — in both parsers. -/
theorem normalization_total_counterexample :
    parse_hashrate_to_ths "1.2.3 TH/s" = none ∧ parse_hashrate "1.2.3 TH/s" = none := by
  exact ⟨by decide, by decide⟩

/-- C4 (amended): a string with no numeric/unit match normalizes to 0,
and a matched numeric token that is a valid float literal (≥ 1 digit,
≤ 1 dot) yields a numeric value; but a matched token with more than
one dot (e.g. "1.2.3 TH/s") raises instead of degrading.  Currency
parsing never raises: the account payload's balance/earn fields carry
the parsed float exactly when the stored string is non-empty and
parses, and are absent otherwise. -/
theorem normalization_totality_amended (s : String) (cfg : UploaderCfg) (row : SummaryRow) :
    (reSearch s.data = none → parse_hashrate_to_ths s = some 0) ∧
    (∀ num u, reSearch s.data = some (num, u) →
      num.count '.' ≤ 1 → num.any Char.isDigit = true → num.all isDigitOrDot = true →
      ∃ q : ℚ, parse_hashrate_to_ths s = some q) ∧
    (∀ num u, reSearch s.data = some (num, u) → 1 < num.count '.' →
      parse_hashrate_to_ths s = none) ∧
    ((tryFloatBTC row.balance = none → (accountPayload cfg row).balance = none) ∧
     (¬row.balance.isEmpty = true → ∀ q, tryFloatBTC row.balance = some q →
        (accountPayload cfg row).balance = some q) ∧
     (tryFloatBTC row.last_income = none → (accountPayload cfg row).earn_24_hours = none) ∧
     (¬row.last_income.isEmpty = true → ∀ q, tryFloatBTC row.last_income = some q →
        (accountPayload cfg row).earn_24_hours = some q)) := by
  refine ⟨?_, ?_, ?_, ?_, ?_, ?_, ?_⟩
  · intro hre
    unfold parse_hashrate_to_ths
    split
    · rfl
    · rw [hre]
  · intro num u hre hd1 hd2 hd3
    unfold parse_hashrate_to_ths pyFloatOfToken
    split
    · exact ⟨0, rfl⟩
    · simp only [hre]
      rw [if_pos (by simp only [Bool.and_eq_true, decide_eq_true_eq]; exact ⟨⟨hd1, hd2⟩, hd3⟩)]
      exact ⟨_, rfl⟩
  · intro num u hre hdots
    unfold parse_hashrate_to_ths pyFloatOfToken
    split
    · rename_i hemp
      have hs : s = "" := (String.isEmpty_iff s).mp hemp
      rw [hs] at hre
      exact Option.noConfusion
        (show (none : Option (List Char × String)) = some (num, u) from hre)
    · simp only [hre]
      rw [if_neg (by simp only [Bool.and_eq_true, decide_eq_true_eq, not_and]; intro hc; omega)]
      rfl
  · intro hnone
    unfold accountPayload
    split
    · rfl
    · exact hnone
  · intro hne q hq
    unfold accountPayload
    rw [if_neg hne]
    exact hq
  · intro hnone
    unfold accountPayload
    show (if row.last_income.isEmpty = true then none else tryFloatBTC row.last_income) = none
    split
    · rfl
    · exact hnone
  · intro hne q hq
    unfold accountPayload
    show (if row.last_income.isEmpty = true then none else tryFloatBTC row.last_income) = some q
    rw [if_neg hne]
    exact hq

/-- Witness for C4 (amended): a no-match string yields 0; a valid token
yields a value; a two-dot token raises; an unparsable balance string is
treated as absent in the account payload. -/
theorem normalization_totality_amended_witness :
    parse_hashrate_to_ths "no hashrate" = some 0 ∧
    (∃ q : ℚ, parse_hashrate_to_ths "13.5 TH/s" = some q) ∧
    parse_hashrate_to_ths "1.2.3 TH/s" = none ∧
    (accountPayload ⟨"acct", "co", "cl", "KZ", "site"⟩
      ⟨1, "a", "u", "", "", 1, 0, "abc BTC", ""⟩).balance = none := by
  refine ⟨?_, ?_, ?_, ?_⟩
  · exact (normalization_totality_amended "no hashrate" ⟨"acct", "co", "cl", "KZ", "site"⟩
      ⟨1, "a", "u", "", "", 1, 0, "abc BTC", ""⟩).1 (by decide)
  · exact (normalization_totality_amended "13.5 TH/s" ⟨"acct", "co", "cl", "KZ", "site"⟩
      ⟨1, "a", "u", "", "", 1, 0, "abc BTC", ""⟩).2.1 ['1', '3', '.', '5'] "TH/s"
      (by decide) (by decide) (by decide) (by decide)
  · exact (normalization_totality_amended "1.2.3 TH/s" ⟨"acct", "co", "cl", "KZ", "site"⟩
      ⟨1, "a", "u", "", "", 1, 0, "abc BTC", ""⟩).2.2.1 ['1', '.', '2', '.', '3'] "TH/s"
      (by decide) (by decide)
  · exact (normalization_totality_amended "x" ⟨"acct", "co", "cl", "KZ", "site"⟩
      ⟨1, "a", "u", "", "", 1, 0, "abc BTC", ""⟩).2.2.2.1 (by decide)
